import Mathlib

/-!
Verification of the `octree` package (point-region octrees over labeled
points in three-dimensional space).

The embedding follows `octree.go`.  Modelling conventions:

* Coordinates (`float64` in the source) are modelled as exact rationals `ℚ`.
  Every comparison the structural algorithms perform on coordinates
  (`>` in `assignOctant`) is an exact comparison, so the octant rule, the
  builder, the query descent and the (de)serialisation mapping are faithful
  over `ℚ`.
* A Go `DataSet` map is modelled as an association list; iteration order of
  a Go map is the list order.
* The leaf field `KEYS` (a comma-joined CSV string in the source) is
  modelled as the list of identifiers that the source joins.
* The builder recursion of the source has no termination guard (the spec
  flags unbounded recursion on coincident clusters as an open question), so
  it is embedded with an explicit recursion-depth fuel: `none` models a
  build that has not completed within the given depth.
* `halt` (fatal `log.Fatalln`) is modelled as an `Except`-style error value;
  Go panics (index out of range, nil-pointer dereference) are modelled as
  `Option.none`.
-/

/-- Coordinates of a data point in R^3 (`DataCoords [3]float64` in the source). -/
abbrev DataCoords := Fin 3 → ℚ

/-- A set of labeled data points (`DataSet map[string]DataCoords` in the
source), modelled as an association list. -/
abbrev DataSet := List (String × DataCoords)

/-- Error taxonomy of the fatal conditions raised via `halt` in the source
(the spec's §7 names; `CorruptData` is listed in the spec but the source has
no code path raising it). -/
inductive OctreeError where
  | invalidMethod
  | invalidThreshold
  | emptyInput
  | emptyTree
  | maxIterationsExceeded
  deriving DecidableEq

/-- Octant assignment rule (`assignOctant` in the source): the source loops
over the three axes and adds `1 << k` whenever the target's coordinate on
axis `k` is strictly greater than the center's; the loop is unrolled here. -/
def assignOctant (c p : DataCoords) : ℕ :=
  (if p 0 > c 0 then 1 else 0) + (if p 1 > c 1 then 2 else 0) +
    (if p 2 > c 2 then 4 else 0)

/-- An octree node (`node` struct in the source).  `CENTER`, `CHILDREN` and
`KEYS` keep their Go zero values (`[0,0,0]`, eight `0` links, empty key
list) on nodes that do not use them. -/
structure Node where
  N : ℕ
  CENTER : DataCoords
  CHILDREN : List ℕ
  KEYS : List String

/-- The Go zero value of the `node` struct. -/
def node0 : Node := ⟨0, fun _ => 0, List.replicate 8 0, []⟩

/-- Partition of a point set into the eight octant subsets relative to a
center (the `childPts` segregation loop of the builder); subset `k` holds
the points whose assigned octant is `k`. -/
def octantSets (c : DataCoords) (pts : DataSet) : List DataSet :=
  (List.range 8).map (fun k => pts.filter (fun p => assignOctant c p.2 == k))

/-- Sequential construction of the child nodes of a parent (the
`for k := range childPts` loop of the builder): for each child subset in
octant order, the next free node index (the current length of the node
list, matching the source's `masterNodeIdx` bookkeeping) is recorded as the
child link and the child subtree is built by the supplied builder `bn`.
`none` propagates an incomplete build. -/
def buildOct (bn : List Node → DataSet → Option (List Node)) :
    List Node → List DataSet → Option (List Node × List ℕ)
  | tree, [] => some (tree, [])
  | tree, s :: rest =>
    match bn tree s with
    | none => none
    | some tree1 =>
      match buildOct bn tree1 rest with
      | none => none
      | some (tree2, idxs) => some (tree2, tree.length :: idxs)

/-- One level of the recursive octree builder (the closure returned by
`makeBuilder`): appends a node for the current subset; if the point count
is at most the termination threshold `t` the node is a leaf storing the
identifiers, otherwise the strategy `cc` computes the partition point, the
subset is segregated into octants and the eight children are built in
octant order by the continuation `bn` (the source first appends a blank
node and later fills its fields; here the blank node is patched with its
final fields once the child links are known). -/
def buildNodeStep (cc : DataSet → DataCoords) (t : ℕ)
    (bn : List Node → DataSet → Option (List Node))
    (tree : List Node) (pts : DataSet) : Option (List Node) :=
  if pts.length ≤ t then
    some (tree ++ [{ node0 with N := pts.length, KEYS := pts.map Prod.fst }])
  else
    match buildOct bn (tree ++ [node0]) (octantSets (cc pts) pts) with
    | none => none
    | some (tree1, idxs) =>
      some (tree1.set tree.length ⟨pts.length, cc pts, idxs, []⟩)

/-- The recursive octree builder: `buildNodeStep` iterated to recursion
depth `fuel`.  The source has no depth bound and diverges where this
returns `none`. -/
def buildNode (cc : DataSet → DataCoords) (t : ℕ) :
    ℕ → List Node → DataSet → Option (List Node)
  | 0 => fun _ _ => none
  | fuel + 1 => buildNodeStep cc t (buildNode cc t fuel)

/-- Top-down query descent (the loop of `Query`): while the node's count
exceeds the threshold the descent moves to the child link selected by the
octant rule; at a leaf its key list is returned.  `fuel` bounds the number
of visited nodes (`none` models a descent that has not reached a leaf, and
an out-of-range node access, which panics in the source). -/
def queryFrom (tree : List Node) (stop : ℕ) (q : DataCoords) :
    ℕ → ℕ → Option (List String)
  | 0, _ => none
  | fuel + 1, idx =>
    match tree[idx]? with
    | none => none
    | some nd =>
      if nd.N > stop then
        queryFrom tree stop q fuel (nd.CHILDREN.getD (assignOctant nd.CENTER q) 0)
      else
        some nd.KEYS

/-- Engine state: the node list `_octree` together with the metadata fields
of `_stats` set by `Make`/`Import` (`HOW`, `STOP`, `TIME`, `SIZE`).  The
wall-clock build duration is carried as an opaque number. -/
structure OctreeState where
  HOW : String
  STOP : ℕ
  TIME : ℕ
  SIZE : ℕ
  octree : List Node

/-- The engine state before any build or import (Go zero values). -/
def initState : OctreeState := ⟨"", 0, 0, 0, []⟩

/-- `Query` of the source: fails with `EmptyTree` when no octree is present
(`_stats.SIZE == 0`), otherwise descends from node `0`. -/
def Query (st : OctreeState) (q : DataCoords) (fuel : ℕ) :
    Except OctreeError (Option (List String)) :=
  if st.SIZE = 0 then .error .emptyTree
  else .ok (queryFrom st.octree st.STOP q fuel 0)

/-- The `Centroid` strategy: arithmetic mean of each coordinate across all
points in the set. -/
def centroid (pts : DataSet) : DataCoords := fun k =>
  (pts.map (fun p => p.2 k)).sum / (pts.length : ℚ)

/-- The `DataMidPoint` strategy: midpoint of the per-axis minimum and
maximum.  The source folds `math.Min`/`math.Max` starting from `±Inf`; over
exact rationals the fold starts from the first point's coordinate, which
agrees on every non-empty set (a strategy is only invoked on sets larger
than the threshold). -/
def dataMidPoint (pts : DataSet) : DataCoords := fun k =>
  match pts with
  | [] => 0
  | p :: rest =>
    (rest.foldl (fun a q => min a (q.2 k)) (p.2 k) +
      rest.foldl (fun a q => max a (q.2 k)) (p.2 k)) / 2

/-- The `XYZ Medians` strategy: per axis, sort that axis's values; for an
odd point count take the middle value, for an even count the average of
the two central values (`midIdx = trunc(numPts/2)` in the source). -/
def xyzMedians (pts : DataSet) : DataCoords := fun k =>
  let numPts := pts.length
  let midIdx := numPts / 2
  let ordinates := (pts.map (fun p => p.2 k)).mergeSort (fun a b => decide (a ≤ b))
  if numPts % 2 ≠ 0 then ordinates.getD midIdx 0
  else (ordinates.getD (midIdx - 1) 0 + ordinates.getD midIdx 0) / 2

/-- Strategy dispatch (`makeCalcCenter`): the four recognized method names
select a center function, anything else is the fatal "unrecognized method
name" condition (`InvalidMethod`).  The `Geometric Median` strategy's
numeric core iterates Weiszfeld steps over floating-point square roots
(see `gmLoop` for its exactly-modelled control flow), so the center
function it returns is passed in as the parameter `gm`. -/
def makeCalcCenterM (gm : DataSet → DataCoords) (method : String) :
    Except OctreeError (DataSet → DataCoords) :=
  match method with
  | "Centroid" => .ok centroid
  | "DataMidPoint" => .ok dataMidPoint
  | "Geometric Median" => .ok gm
  | "XYZ Medians" => .ok xyzMedians
  | _ => .error .invalidMethod

/-- `Make` of the source: validates the termination criterion
(`terminal_N > 1`) and the point set (non-empty), creates the builder
(which resolves the method name, failing fast on an unrecognized one
before any recursion), builds the octree from an empty node list and
records the metadata.  The wall-clock duration is not modelled (recorded
as `0`).  `none` models a build whose recursion exceeds `fuel` (the source
would not terminate). -/
def Make (gm : DataSet → DataCoords) (method : String) (terminal_N : ℤ)
    (pts : DataSet) (fuel : ℕ) : Option (Except OctreeError OctreeState) :=
  if ¬ terminal_N > 1 then some (.error .invalidThreshold)
  else if pts.length = 0 then some (.error .emptyInput)
  else
    match makeCalcCenterM gm method with
    | .error e => some (.error e)
    | .ok cc =>
      match buildNode cc terminal_N.toNat fuel [] pts with
      | none => none
      | some tree =>
        some (.ok ⟨method, terminal_N.toNat, 0, tree.length, tree⟩)

/-- JSON exchange record for one node (`jsonNode`): `center` and
`children` are optional (omitted on leaves), `keys` is omitted (empty) on
parents. -/
structure JsonNode where
  ID : ℕ
  N : ℕ
  CENTER : Option DataCoords
  CHILDREN : Option (List ℕ)
  KEYS : List String

/-- JSON exchange record for the whole octree (`jsonOctree`). -/
structure JsonOctree where
  HOW : String
  STOP : ℕ
  TIME : ℕ
  SIZE : ℕ
  OCTREE : List JsonNode

/-- The per-node export mapping of `Export`: a node whose count exceeds
the threshold is written with `center` and `children`, any other node with
its `keys`. -/
def exportNode (stop : ℕ) (k : ℕ) (v : Node) : JsonNode :=
  if v.N > stop then ⟨k, v.N, some v.CENTER, some v.CHILDREN, []⟩
  else ⟨k, v.N, none, none, v.KEYS⟩

/-- `Export` of the source (file I/O aside): fails when there is no octree
(`_stats.SIZE == 0`), otherwise maps every node of the list, in index
order, through `exportNode` and attaches the metadata. -/
def Export (st : OctreeState) : Except OctreeError JsonOctree :=
  if st.SIZE = 0 then .error .emptyTree
  else .ok ⟨st.HOW, st.STOP, st.TIME, st.SIZE,
    st.octree.enum.map (fun kv => exportNode st.STOP kv.1 kv.2)⟩

/-- The per-node import mapping of `Import`: parent/leaf status is decided
purely by comparing the stored count against the imported threshold; a
parent record missing `center` or `children` dereferences a nil pointer in
the source (modelled as `none`), a leaf record keeps the zero values for
`center`/`children` and takes its `keys` (missing keys silently become the
empty collection). -/
def importNode (stop : ℕ) (v : JsonNode) : Option Node :=
  if v.N > stop then
    match v.CENTER, v.CHILDREN with
    | some c, some ch => some ⟨v.N, c, ch, []⟩
    | _, _ => none
  else some ⟨v.N, fun _ => 0, List.replicate 8 0, v.KEYS⟩

/-- The node loop of `Import`: the `k`-th record of the file is written
into slot `k` of the freshly allocated node list; a record index beyond
the allocated size is an out-of-range panic in the source (modelled as
`none`).  Records fewer than the allocated size leave zero-valued nodes
behind, silently. -/
def importLoop (stop : ℕ) : List Node → ℕ → List JsonNode → Option (List Node)
  | arr, _, [] => some arr
  | arr, k, v :: rest =>
    if k < arr.length then
      match importNode stop v with
      | none => none
      | some nd => importLoop stop (arr.set k nd) (k + 1) rest
    else none

/-- `Import` of the source (file I/O and JSON decoding aside): copies the
metadata, allocates `SIZE` zero-valued nodes (`make([]node, SIZE)`) and
fills them from the records.  The source performs no structural
validation: no size check between `SIZE` and the record list, and no
explicit missing-field check. -/
def Import (j : JsonOctree) : Option OctreeState :=
  match importLoop j.STOP (List.replicate j.SIZE node0) 0 j.OCTREE with
  | none => none
  | some arr => some ⟨j.HOW, j.STOP, j.TIME, j.SIZE, arr⟩

/-- The derived statistics computed by `calcStats` (the numeric core; the
source additionally renders these as display strings).  `SIGMASQ` is the
population variance of the leaf counts: the source reports its square
root, which carries exactly the same information, and the square root of a
rational is not in general rational. -/
structure Stats where
  LEAFCOUNTS : List ℕ
  MINPTS : ℤ
  MAXPTS : ℤ
  NUMPARENTS : ℕ
  NUMLEAVES : ℕ
  NUMEMPTY : ℕ
  NUMPTS : ℕ
  MU : ℚ
  SIGMASQ : ℚ

/-- `calcStats` of the source: one pass over the node list classifying
each node by comparing its count to the threshold, collecting the leaf
point counts, the parent/leaf/empty-leaf tallies, the extremes of the leaf
counts (the source starts the fold from `MaxInt`/`MinInt`), the total
point count (`_octree[0].N`), and the mean and population variance of the
leaf counts. -/
def calcStatsM (octree : List Node) (stop : ℕ) : Stats :=
  let leafcounts := (octree.filter (fun v => decide (¬ v.N > stop))).map Node.N
  let numLeaves := leafcounts.length
  let mu : ℚ := (leafcounts.map (fun n => (n : ℚ))).sum / (numLeaves : ℚ)
  { LEAFCOUNTS := leafcounts
    MINPTS := leafcounts.foldl (fun a n => min a (n : ℤ)) (2 ^ 63 - 1)
    MAXPTS := leafcounts.foldl (fun a n => max a (n : ℤ)) (-2 ^ 63)
    NUMPARENTS := (octree.filter (fun v => decide (v.N > stop))).length
    NUMLEAVES := numLeaves
    NUMEMPTY := (leafcounts.filter (fun n => n == 0)).length
    NUMPTS := (octree.headD node0).N
    MU := mu
    SIGMASQ := (leafcounts.map (fun n => ((n : ℚ) - mu) * ((n : ℚ) - mu))).sum / (numLeaves : ℚ) }

/-- The squared Euclidean distance accumulated by `calcWeiszfeldEstimate`
for one data point `v` against the current estimate (the `metric`
accumulation loop, unrolled): the source then takes `math.Sqrt` of this
value and divides by the result with no zero check. -/
def weiszfeldMetricSq (v est : DataCoords) : ℚ :=
  (v 0 - est 0) * (v 0 - est 0) + (v 1 - est 1) * (v 1 - est 1) +
    (v 2 - est 2) * (v 2 - est 2)

/-- The squares of the divisors `math.Sqrt(metric)` used by one Weiszfeld
step, one per point of the set. -/
def weiszfeldDivisorsSq (pts : DataSet) (est : DataCoords) : List ℚ :=
  pts.map (fun p => weiszfeldMetricSq p.2 est)

/-- `calcAitkenEstimate` of the source: per-axis Aitken acceleration of the
sequence `e0, e1, e2`, falling back to `e2` when the denominator is exactly
zero. -/
def calcAitkenEstimate (e0 e1 e2 : DataCoords) : DataCoords := fun k =>
  let num := (e1 k - e0 k) * (e1 k - e0 k)
  let denom := e2 k - 2 * e1 k + e0 k
  if denom ≠ 0 then e0 k - num / denom else e2 k

/-- Per-axis absolute differences between consecutive estimates (the
`diffs` rows of the geometric-median loop). -/
def diffAxes (a b : DataCoords) : DataCoords := fun k => |a k - b k|

/-- The maximum over the three axes of a difference row
(`math.Max(d[0], math.Max(d[1], d[2]))` in the source). -/
def maxDiff (d : DataCoords) : ℚ := max (d 0) (max (d 1) (d 2))

/-- The per-axis choice of the next guess when no sub-step converged: the
Aitken value where the three differences decrease strictly monotonically on
that axis, the second Weiszfeld value otherwise. -/
def nextGuess (d1 d2 d3 e2 e3 : DataCoords) : DataCoords := fun k =>
  if d1 k > d2 k ∧ d2 k > d3 k then e3 k else e2 k

/-- The body of the macro-iteration loop of the `Geometric Median`
strategy (`makeCalcCenter`, case "Geometric Median"), one loop pass of the
source.  Each macro-iteration checks `iterations < MaxIterations`, then
performs two Weiszfeld sub-steps and one Aitken sub-step, checking
convergence of the per-axis differences against the tolerance after every
sub-step; when none converged the iteration counter advances by 3 and the
loop restarts from the per-axis `nextGuess`; once the counter no longer
satisfies `iterations < maxIter` it fails with `MaxIterationsExceeded`.
The Weiszfeld sub-step `W` (the closure of `calcWeiszfeldEstimate` over
the point set, whose arithmetic uses floating-point square roots) is a
parameter; everything the loop itself computes is exact.  The recursion is
grounded structurally on the budget `budget`, an upper bound on
`maxIter - iterations`; any budget at least that large yields the same
result (`gmLoopGo_budget_irrel`), because the exit test of the source
(`iterations < maxIter`) is what decides every branch. -/
def gmLoopGo (W : DataCoords → DataCoords) (tol : ℚ) (maxIter : ℕ) :
    ℕ → ℕ → DataCoords → Except OctreeError DataCoords
  | 0, _, _ => .error .maxIterationsExceeded
  | budget + 1, iterations, e0 =>
    if iterations < maxIter then
      let e1 := W e0
      let d1 := diffAxes e1 e0
      if maxDiff d1 < tol then .ok e1
      else
        let e2 := W e1
        let d2 := diffAxes e2 e1
        if maxDiff d2 < tol then .ok e2
        else
          let e3 := calcAitkenEstimate e0 e1 e2
          let d3 := diffAxes e3 e2
          if maxDiff d3 < tol then .ok e3
          else gmLoopGo W tol maxIter budget (iterations + 3) (nextGuess d1 d2 d3 e2 e3)
    else .error .maxIterationsExceeded

/-- The macro-iteration loop of the `Geometric Median` strategy, entered
with the current iteration counter: the structural budget
`maxIter - iterations` is exactly the remaining room of the source's loop
counter. -/
def gmLoop (W : DataCoords → DataCoords) (tol : ℚ) (maxIter : ℕ)
    (iterations : ℕ) (e0 : DataCoords) : Except OctreeError DataCoords :=
  gmLoopGo W tol maxIter (maxIter - iterations) iterations e0

/-- The all-zero coordinate triple. -/
def coords0 : DataCoords := fun _ => 0

/-- The coordinate triple `(1,1,1)`. -/
def coords1 : DataCoords := fun _ => 1

/-- The coordinate triple `(2,2,2)`. -/
def coords2 : DataCoords := fun _ => 2

/-- A stub standing in for the geometric-median center function in the
concrete evaluations (it always answers the origin). -/
def gmStub : DataSet → DataCoords := fun _ => coords0

/-- A three-point data set whose build with threshold `2` splits once. -/
def ptsABD : DataSet := [("A", coords0), ("B", coords1), ("D", coords2)]

/-- The node list built from `ptsABD` with threshold `2` and the stub
center: a parent root and eight leaf children. -/
def treeW : List Node := (buildNode gmStub 2 2 [] ptsABD).getD []

/-- The engine state produced by that build. -/
def stW : OctreeState := ⟨"Geometric Median", 2, 0, treeW.length, treeW⟩

/-- Sum of the point counts of the leaf nodes (count at most `t`) in a
node-list segment. -/
def leafCountSum (t : ℕ) (l : List Node) : ℕ :=
  (l.map (fun nd => if nd.N ≤ t then nd.N else 0)).sum

/-- `T` agrees with `U` on every index in the half-open range `[a, b)`. -/
def agreeOn (T U : List Node) (a b : ℕ) : Prop :=
  ∀ i, a ≤ i → i < b → T[i]? = U[i]?

/-- Everything one completed builder call guarantees,
`buildNode cc t fuel tree pts = some tree'`: the new nodes form a segment
appended after `tree`; the first node of the segment is the subtree root
and carries the subset's point count; every new node is well-formed (a
node with count above the threshold stores eight child links pointing
strictly beyond its own position but into the produced list, and no keys;
a node with count at most the threshold keeps the zero center and child
links); the leaf counts of the segment sum to the subset size; and in any
node list agreeing with the produced one on the segment, a query descent
started at the segment root with the coordinates of any point of the
subset reaches a leaf holding that point's identifier. -/
def BuildOut (t : ℕ) (tree : List Node) (pts : DataSet) (tree' : List Node) : Prop :=
  ∃ seg : List Node,
    tree' = tree ++ seg ∧
    seg ≠ [] ∧
    (∃ root, seg.head? = some root ∧ root.N = pts.length) ∧
    (∀ i nd, seg[i]? = some nd →
      (t < nd.N →
        nd.CHILDREN.length = 8 ∧
        (∀ c ∈ nd.CHILDREN, tree.length + i < c ∧ c < tree.length + seg.length) ∧
        nd.KEYS = []) ∧
      (nd.N ≤ t → nd.CENTER = (fun _ => 0) ∧ nd.CHILDREN = List.replicate 8 0)) ∧
    leafCountSum t seg = pts.length ∧
    (∀ T, agreeOn T (tree ++ seg) tree.length (tree.length + seg.length) →
      ∀ key p, (key, p) ∈ pts →
        ∃ keys, queryFrom T t p seg.length tree.length = some keys ∧ key ∈ keys)

/-- Everything one completed `buildOct` call guarantees, analogous to
`BuildOut` but for the sequence of sibling subtrees: additionally, each
recorded child index points at the root of the subtree built for the
corresponding subset, witnessed by the query clause per subset. -/
def OctOut (t : ℕ) (tree : List Node) (sets : List DataSet)
    (tree' : List Node) (idxs : List ℕ) : Prop :=
  ∃ seg : List Node,
    tree' = tree ++ seg ∧
    idxs.length = sets.length ∧
    (∀ i nd, seg[i]? = some nd →
      (t < nd.N →
        nd.CHILDREN.length = 8 ∧
        (∀ c ∈ nd.CHILDREN, tree.length + i < c ∧ c < tree.length + seg.length) ∧
        nd.KEYS = []) ∧
      (nd.N ≤ t → nd.CENTER = (fun _ => 0) ∧ nd.CHILDREN = List.replicate 8 0)) ∧
    leafCountSum t seg = (sets.map List.length).sum ∧
    (∀ (j ij : ℕ) (sj : DataSet), sets[j]? = some sj → idxs[j]? = some ij →
      tree.length ≤ ij ∧ ij < tree.length + seg.length ∧
      (∀ T, agreeOn T (tree ++ seg) tree.length (tree.length + seg.length) →
        ∀ key p, (key, p) ∈ sj →
          ∃ keys, queryFrom T t p (tree.length + seg.length - ij) ij = some keys ∧
            key ∈ keys))

/-- A leaf exchange record holding identifier `A` with one point. -/
def jsonLeafA : JsonNode := ⟨0, 1, none, none, ["A"]⟩

/-- An exchange record declaring two nodes but carrying only one: a size
mismatch between the declared node count and the node list. -/
def jShort : JsonOctree := ⟨"Centroid", 2, 0, 2, [jsonLeafA]⟩

/-- An exchange record declaring one node but carrying two: the opposite
size mismatch. -/
def jLong : JsonOctree := ⟨"Centroid", 2, 0, 1, [jsonLeafA, ⟨1, 0, none, none, []⟩]⟩

theorem assignOctant_lt (c p : DataCoords) : assignOctant c p < 8 := by
  unfold assignOctant
  by_cases h0 : p 0 > c 0 <;> by_cases h1 : p 1 > c 1 <;> by_cases h2 : p 2 > c 2 <;>
    simp [h0, h1, h2]

theorem leafCountSum_append (t : ℕ) (a b : List Node) :
    leafCountSum t (a ++ b) = leafCountSum t a + leafCountSum t b := by
  simp [leafCountSum]

theorem sum_map_indicator_one (m : ℕ) :
    ∀ l : List ℕ, l.Nodup → m ∈ l →
      (l.map (fun k => if m = k then (1 : ℕ) else 0)).sum = 1 := by
  intro l
  induction l with
  | nil => intro _ hm; simp at hm
  | cons a l ih =>
    intro hnd hm
    rcases List.mem_cons.mp hm with rfl | hm'
    · have hnotmem : ∀ x ∈ l, ¬ (m = x) :=
        fun x hx he => (List.nodup_cons.mp hnd).1 (he ▸ hx)
      have hz : (l.map (fun k => if m = k then (1 : ℕ) else 0)).sum = 0 := by
        apply List.sum_eq_zero
        intro x hx
        obtain ⟨k, hk, rfl⟩ := List.mem_map.mp hx
        simp [hnotmem k hk]
      simp [hz]
    · have hne : m ≠ a := fun he => (List.nodup_cons.mp hnd).1 (he ▸ hm')
      have := ih (List.nodup_cons.mp hnd).2 hm'
      simp [hne, this]

theorem sum_range_filter_length {α : Type} (f : α → ℕ) (n : ℕ) :
    ∀ l : List α, (∀ x ∈ l, f x < n) →
      ((List.range n).map (fun k => (l.filter (fun x => f x == k)).length)).sum
        = l.length := by
  intro l
  induction l with
  | nil => intro _; simp
  | cons a l ih =>
    intro h
    have ha : f a < n := h a (List.mem_cons_self a l)
    have hl := ih (fun x hx => h x (List.mem_cons_of_mem a hx))
    have hsplit : ∀ k : ℕ, (List.filter (fun x => f x == k) (a :: l)).length
        = (if f a = k then 1 else 0) + (List.filter (fun x => f x == k) l).length := by
      intro k
      by_cases hk : f a = k
      · simp [List.filter_cons, hk]
        omega
      · simp [List.filter_cons, hk]
    calc ((List.range n).map
            (fun k => (List.filter (fun x => f x == k) (a :: l)).length)).sum
        = ((List.range n).map (fun k => (if f a = k then 1 else 0)
            + (List.filter (fun x => f x == k) l).length)).sum := by
          simp only [hsplit]
      _ = ((List.range n).map (fun k => if f a = k then (1 : ℕ) else 0)).sum
            + ((List.range n).map
                (fun k => (List.filter (fun x => f x == k) l).length)).sum :=
          List.sum_map_add
      _ = 1 + l.length := by
          rw [hl, sum_map_indicator_one (f a) (List.range n) (List.nodup_range n)
            (List.mem_range.mpr ha)]
      _ = (a :: l).length := by simp [Nat.add_comm]

theorem octantSets_length (c : DataCoords) (pts : DataSet) :
    (octantSets c pts).length = 8 := by
  simp [octantSets]

theorem octantSets_getElem? (c : DataCoords) (pts : DataSet) (k : ℕ) (hk : k < 8) :
    (octantSets c pts)[k]? = some (pts.filter (fun p => assignOctant c p.2 == k)) := by
  simp [octantSets, List.getElem?_map, List.getElem?_range hk]

theorem octantSets_length_sum (c : DataCoords) (pts : DataSet) :
    ((octantSets c pts).map List.length).sum = pts.length := by
  have h := sum_range_filter_length (fun p : String × DataCoords => assignOctant c p.2)
    8 pts (fun x _ => assignOctant_lt c x.2)
  simpa [octantSets, List.map_map, Function.comp] using h

theorem queryFrom_succ_none (tree : List Node) (stop : ℕ) (q : DataCoords)
    (fuel idx : ℕ) (h : tree[idx]? = none) :
    queryFrom tree stop q (fuel + 1) idx = none := by
  show (match tree[idx]? with
    | none => none
    | some nd =>
      if nd.N > stop then
        queryFrom tree stop q fuel (nd.CHILDREN.getD (assignOctant nd.CENTER q) 0)
      else some nd.KEYS) = none
  rw [h]

theorem queryFrom_succ_some (tree : List Node) (stop : ℕ) (q : DataCoords)
    (fuel idx : ℕ) (nd : Node) (h : tree[idx]? = some nd) :
    queryFrom tree stop q (fuel + 1) idx =
      if nd.N > stop then
        queryFrom tree stop q fuel (nd.CHILDREN.getD (assignOctant nd.CENTER q) 0)
      else some nd.KEYS := by
  show (match tree[idx]? with
    | none => none
    | some nd =>
      if nd.N > stop then
        queryFrom tree stop q fuel (nd.CHILDREN.getD (assignOctant nd.CENTER q) 0)
      else some nd.KEYS) = _
  rw [h]

theorem queryFrom_mono (tree : List Node) (stop : ℕ) (q : DataCoords) :
    ∀ fuel fuel' idx r, fuel ≤ fuel' →
      queryFrom tree stop q fuel idx = some r →
      queryFrom tree stop q fuel' idx = some r := by
  intro fuel
  induction fuel with
  | zero => intro fuel' idx r _ h; simp [queryFrom] at h
  | succ fuel ih =>
    intro fuel' idx r hle h
    obtain ⟨fuel'', rfl⟩ : ∃ f, fuel' = f + 1 := ⟨fuel' - 1, by omega⟩
    cases hnd : tree[idx]? with
    | none =>
      rw [queryFrom_succ_none tree stop q fuel idx hnd] at h
      exact absurd h (by simp)
    | some nd =>
      rw [queryFrom_succ_some tree stop q fuel idx nd hnd] at h
      rw [queryFrom_succ_some tree stop q fuel'' idx nd hnd]
      by_cases hp : nd.N > stop
      · rw [if_pos hp] at h ⊢
        exact ih fuel'' _ r (by omega) h
      · rw [if_neg hp] at h ⊢
        exact h

theorem leafCountSum_cons (t : ℕ) (x : Node) (l : List Node) :
    leafCountSum t (x :: l) = (if x.N ≤ t then x.N else 0) + leafCountSum t l := by
  simp [leafCountSum]

theorem buildOct_cons (bn : List Node → DataSet → Option (List Node))
    (tree : List Node) (s : DataSet) (rest : List DataSet) :
    buildOct bn tree (s :: rest) =
      match bn tree s with
      | none => none
      | some tree1 =>
        match buildOct bn tree1 rest with
        | none => none
        | some (tree2, idxs) => some (tree2, tree.length :: idxs) := rfl

theorem buildOct_spec (t : ℕ) (bn : List Node → DataSet → Option (List Node))
    (hbn : ∀ tree pts tree', bn tree pts = some tree' → BuildOut t tree pts tree') :
    ∀ (sets : List DataSet) (tree tree' : List Node) (idxs : List ℕ),
      buildOct bn tree sets = some (tree', idxs) → OctOut t tree sets tree' idxs := by
  intro sets
  induction sets with
  | nil =>
    intro tree tree' idxs h
    have h' : (some (tree, ([] : List ℕ)) : Option (List Node × List ℕ))
        = some (tree', idxs) := h
    obtain ⟨rfl, rfl⟩ : tree = tree' ∧ ([] : List ℕ) = idxs := by simpa using h'
    refine ⟨[], by simp, rfl, ?_, by simp [leafCountSum], ?_⟩
    · intro i nd hget; simp at hget
    · intro j ij sj hs _; simp at hs
  | cons s rest ih =>
    intro tree tree' idxs h
    rw [buildOct_cons] at h
    cases h1 : bn tree s with
    | none => simp [h1] at h
    | some tree1 =>
      cases h2 : buildOct bn tree1 rest with
      | none => simp [h1, h2] at h
      | some pr =>
        obtain ⟨tree2, idxs2⟩ := pr
        simp only [h1, h2] at h
        obtain ⟨rfl, rfl⟩ : tree2 = tree' ∧ tree.length :: idxs2 = idxs := by
          simpa using h
        obtain ⟨seg1, e1, hne1, -, hwf1, hsum1, hq1⟩ := hbn tree s tree1 h1
        obtain ⟨seg2, e2, hlen2, hwf2, hsum2, hj2⟩ := ih tree1 tree2 idxs2 h2
        have hlen1 : tree1.length = tree.length + seg1.length := by rw [e1]; simp
        have hpos1 : 0 < seg1.length := List.length_pos.mpr hne1
        refine ⟨seg1 ++ seg2, ?_, ?_, ?_, ?_, ?_⟩
        · rw [e2, e1, List.append_assoc]
        · simpa using hlen2
        · intro i nd hget
          by_cases hi : i < seg1.length
          · rw [List.getElem?_append_left hi] at hget
            have hw := hwf1 i nd hget
            refine ⟨fun hpar => ?_, hw.2⟩
            obtain ⟨h8, hb, hk⟩ := hw.1 hpar
            refine ⟨h8, fun cI hc => ?_, hk⟩
            have := hb cI hc
            simp only [List.length_append]
            omega
          · have hge : seg1.length ≤ i := not_lt.mp hi
            rw [List.getElem?_append_right hge] at hget
            have hw := hwf2 (i - seg1.length) nd hget
            refine ⟨fun hpar => ?_, hw.2⟩
            obtain ⟨h8, hb, hk⟩ := hw.1 hpar
            refine ⟨h8, fun cI hc => ?_, hk⟩
            have := hb cI hc
            simp only [List.length_append]
            omega
        · rw [leafCountSum_append, hsum1, hsum2]
          simp
        · intro j ij sj hs hidx
          cases j with
          | zero =>
            obtain rfl : s = sj := by simpa using hs
            obtain rfl : tree.length = ij := by simpa using hidx
            refine ⟨le_refl _, by simp only [List.length_append]; omega, ?_⟩
            intro T hag key p hmem
            have hag1 : agreeOn T (tree ++ seg1) tree.length
                (tree.length + seg1.length) := by
              intro i hge hlt
              have h1' := hag i hge (by simp only [List.length_append]; omega)
              rw [h1', ← List.append_assoc]
              exact List.getElem?_append_left (by simp only [List.length_append]; omega)
            obtain ⟨keys, hq, hk⟩ := hq1 T hag1 key p hmem
            refine ⟨keys, ?_, hk⟩
            have heq : tree.length + (seg1 ++ seg2).length - tree.length
                = (seg1 ++ seg2).length := by omega
            rw [heq]
            exact queryFrom_mono T t p seg1.length (seg1 ++ seg2).length tree.length
              keys (by simp only [List.length_append]; omega) hq
          | succ j' =>
            have hs' : rest[j']? = some sj := by simpa using hs
            have hidx' : idxs2[j']? = some ij := by simpa using hidx
            obtain ⟨hlo, hhi, hq2⟩ := hj2 j' ij sj hs' hidx'
            refine ⟨by omega, ?_, ?_⟩
            · simp only [List.length_append]
              omega
            · intro T hag key p hmem
              have hagx : agreeOn T (tree1 ++ seg2) tree1.length
                  (tree1.length + seg2.length) := by
                intro i hge hlt
                rw [e1, List.append_assoc]
                exact hag i (by omega) (by simp only [List.length_append]; omega)
              obtain ⟨keys, hq, hk⟩ := hq2 T hagx key p hmem
              refine ⟨keys, ?_, hk⟩
              have heq : tree.length + (seg1 ++ seg2).length - ij
                  = tree1.length + seg2.length - ij := by
                simp only [List.length_append]
                omega
              rw [heq]
              exact hq

theorem buildNode_spec (cc : DataSet → DataCoords) (t : ℕ) :
    ∀ (fuel : ℕ) (tree : List Node) (pts : DataSet) (tree' : List Node),
      buildNode cc t fuel tree pts = some tree' → BuildOut t tree pts tree' := by
  intro fuel
  induction fuel with
  | zero =>
    intro tree pts tree' h
    exact absurd h (by simp [buildNode])
  | succ fuel ih =>
    intro tree pts tree' h
    have h' : buildNodeStep cc t (buildNode cc t fuel) tree pts = some tree' := h
    unfold buildNodeStep at h'
    by_cases hle : pts.length ≤ t
    · rw [if_pos hle] at h'
      obtain rfl : tree ++ [{ node0 with N := pts.length, KEYS := pts.map Prod.fst }]
          = tree' := by simpa using h'
      refine ⟨[{ node0 with N := pts.length, KEYS := pts.map Prod.fst }],
        rfl, by simp, ⟨_, rfl, rfl⟩, ?_, ?_, ?_⟩
      · intro i nd hget
        cases i with
        | zero =>
          obtain rfl : ({ node0 with N := pts.length, KEYS := pts.map Prod.fst } : Node)
              = nd := by simpa using hget
          refine ⟨fun hpar => absurd hpar (by simpa using hle), fun _ => ?_⟩
          constructor <;> simp [node0]
        | succ i' => simp at hget
      · simp [leafCountSum, hle]
      · intro T hag key p hmem
        have hT : T[tree.length]?
            = some ({ node0 with N := pts.length, KEYS := pts.map Prod.fst } : Node) := by
          rw [hag tree.length (le_refl _) (by simp), List.getElem?_concat_length]
        rw [show ([{ node0 with N := pts.length, KEYS := pts.map Prod.fst }] :
            List Node).length = 0 + 1 by simp]
        rw [queryFrom_succ_some T t p 0 tree.length _ hT]
        rw [if_neg (by simpa using hle)]
        exact ⟨pts.map Prod.fst, rfl, List.mem_map.mpr ⟨(key, p), hmem, rfl⟩⟩
    · rw [if_neg hle] at h'
      have hgt : t < pts.length := Nat.lt_of_not_le (fun hc => hle hc)
      cases hb : buildOct (buildNode cc t fuel) (tree ++ [node0])
          (octantSets (cc pts) pts) with
      | none => simp [hb] at h'
      | some pr =>
        obtain ⟨tree1, idxs⟩ := pr
        simp only [hb] at h'
        obtain rfl : tree1.set tree.length ⟨pts.length, cc pts, idxs, []⟩ = tree' := by
          simpa using h'
        obtain ⟨seg2, e2, hlen2, hwf2, hsum2, hj2⟩ :=
          buildOct_spec t (buildNode cc t fuel)
            (fun tr pt tr' hh => ih tr pt tr' hh)
            (octantSets (cc pts) pts) (tree ++ [node0]) tree1 idxs hb
        have hL1 : (tree ++ [node0]).length = tree.length + 1 := by simp
        have hidxlen : idxs.length = 8 := by rw [hlen2, octantSets_length]
        have hset : tree1.set tree.length ⟨pts.length, cc pts, idxs, []⟩
            = tree ++ (⟨pts.length, cc pts, idxs, []⟩ :: seg2) := by
          rw [e2, List.append_assoc, List.singleton_append,
            List.set_append_right _ _ (le_refl tree.length)]
          simp
        refine ⟨⟨pts.length, cc pts, idxs, []⟩ :: seg2, hset, by simp,
          ⟨_, rfl, rfl⟩, ?_, ?_, ?_⟩
        · intro i nd hget
          cases i with
          | zero =>
            obtain rfl : (⟨pts.length, cc pts, idxs, []⟩ : Node) = nd := by
              simpa using hget
            refine ⟨fun _ => ⟨hidxlen, ?_, rfl⟩, fun hc => absurd hc hle⟩
            intro cI hc
            obtain ⟨j, hj⟩ := List.getElem?_of_mem hc
            have hjlt : j < idxs.length := (List.getElem?_eq_some.mp hj).1
            have hj8 : j < 8 := by omega
            obtain ⟨hlo, hhi, -⟩ := hj2 j cI _ (octantSets_getElem? (cc pts) pts j hj8) hj
            rw [hL1] at hlo hhi
            simp only [List.length_cons]
            omega
          | succ i' =>
            have hget' : seg2[i']? = some nd := by simpa using hget
            have hw := hwf2 i' nd hget'
            refine ⟨fun hpar => ?_, hw.2⟩
            obtain ⟨h8, hb, hk⟩ := hw.1 hpar
            refine ⟨h8, fun cI hc => ?_, hk⟩
            have := hb cI hc
            rw [hL1] at this
            simp only [List.length_cons]
            omega
        · rw [leafCountSum_cons]
          have : ¬ (⟨pts.length, cc pts, idxs, []⟩ : Node).N ≤ t := by simpa using hle
          rw [if_neg this, hsum2, octantSets_length_sum]
          omega
        · intro T hag key p hmem
          have hk8 : assignOctant (cc pts) p < 8 := assignOctant_lt _ _
          have hsets := octantSets_getElem? (cc pts) pts (assignOctant (cc pts) p) hk8
          have hklt : assignOctant (cc pts) p < idxs.length := by omega
          obtain ⟨ij, hij⟩ : ∃ ij, idxs[(assignOctant (cc pts) p)]? = some ij :=
            ⟨_, List.getElem?_eq_getElem hklt⟩
          have hmemk : (key, p) ∈ pts.filter
              (fun q => assignOctant (cc pts) q.2 == assignOctant (cc pts) p) :=
            List.mem_filter.mpr ⟨hmem, by simp⟩
          obtain ⟨hlo, hhi, hq2⟩ := hj2 (assignOctant (cc pts) p) ij _ hsets hij
          have hag2 : agreeOn T ((tree ++ [node0]) ++ seg2) (tree ++ [node0]).length
              ((tree ++ [node0]).length + seg2.length) := by
            intro i hge hlt
            rw [hL1] at hge hlt
            have hi1 : (tree ++ (⟨pts.length, cc pts, idxs, []⟩ :: seg2))[i]?
                = seg2[i - (tree.length + 1)]? := by
              rw [show tree ++ ((⟨pts.length, cc pts, idxs, []⟩ : Node) :: seg2)
                  = (tree ++ [⟨pts.length, cc pts, idxs, []⟩]) ++ seg2 by simp]
              rw [List.getElem?_append_right (by simp; omega)]
              simp
            have hi2 : ((tree ++ [node0]) ++ seg2)[i]? = seg2[i - (tree.length + 1)]? := by
              rw [List.getElem?_append_right (by rw [hL1]; omega)]
              rw [hL1]
            rw [hag i (by omega) (by simp only [List.length_cons]; omega), hi1, hi2]
          obtain ⟨keys, hq, hkmem⟩ := hq2 T hag2 key p hmemk
          have hroot : T[tree.length]? = some (⟨pts.length, cc pts, idxs, []⟩ : Node) := by
            rw [hag tree.length (le_refl _) (by simp only [List.length_cons]; omega)]
            rw [List.getElem?_append_right (le_refl _)]
            simp
          refine ⟨keys, ?_, hkmem⟩
          rw [show ((⟨pts.length, cc pts, idxs, []⟩ : Node) :: seg2).length
              = seg2.length + 1 from rfl]
          rw [queryFrom_succ_some T t p seg2.length tree.length _ hroot]
          rw [if_pos (show (⟨pts.length, cc pts, idxs, []⟩ : Node).N > t from hgt)]
          have hgetd : (⟨pts.length, cc pts, idxs, []⟩ : Node).CHILDREN.getD
              (assignOctant (⟨pts.length, cc pts, idxs, []⟩ : Node).CENTER p) 0 = ij := by
            show idxs.getD (assignOctant (cc pts) p) 0 = ij
            rw [List.getD_eq_getElem?_getD, hij]
            rfl
          rw [hgetd]
          refine queryFrom_mono T t p ((tree ++ [node0]).length + seg2.length - ij)
            seg2.length ij keys ?_ hq
          rw [hL1] at hlo
          omega

theorem Make_ok_elim (gm : DataSet → DataCoords) (method : String) (terminal_N : ℤ)
    (pts : DataSet) (fuel : ℕ) (st : OctreeState)
    (h : Make gm method terminal_N pts fuel = some (.ok st)) :
    ∃ cc tree, makeCalcCenterM gm method = .ok cc ∧
      buildNode cc terminal_N.toNat fuel [] pts = some tree ∧
      st = ⟨method, terminal_N.toNat, 0, tree.length, tree⟩ ∧
      1 < terminal_N ∧ pts ≠ [] := by
  unfold Make at h
  by_cases h1 : ¬ terminal_N > 1
  · rw [if_pos h1] at h
    simp at h
  · rw [if_neg h1] at h
    by_cases h2 : pts.length = 0
    · rw [if_pos h2] at h
      simp at h
    · rw [if_neg h2] at h
      cases h3 : makeCalcCenterM gm method with
      | error e =>
        simp only [h3] at h
        simp at h
      | ok cc =>
        simp only [h3] at h
        cases h4 : buildNode cc terminal_N.toNat fuel [] pts with
        | none =>
          simp only [h4] at h
          simp at h
        | some tree =>
          simp only [h4] at h
          obtain rfl : (⟨method, terminal_N.toNat, 0, tree.length, tree⟩ : OctreeState)
              = st := by simpa using h
          exact ⟨cc, tree, rfl, h4, rfl, not_not.mp h1,
            fun hc => h2 (by simp [hc])⟩

theorem queryFrom_total (tree : List Node) (stop : ℕ) (q : DataCoords)
    (hwf : ∀ i nd, tree[i]? = some nd → stop < nd.N →
      nd.CHILDREN.length = 8 ∧ ∀ c ∈ nd.CHILDREN, i < c ∧ c < tree.length) :
    ∀ fuel idx, idx < tree.length → tree.length - idx ≤ fuel →
      ∃ keys, queryFrom tree stop q fuel idx = some keys := by
  intro fuel
  induction fuel with
  | zero => intro idx h1 h2; omega
  | succ fuel ih =>
    intro idx h1 h2
    obtain ⟨nd, hnd⟩ : ∃ nd, tree[idx]? = some nd := ⟨_, List.getElem?_eq_getElem h1⟩
    rw [queryFrom_succ_some tree stop q fuel idx nd hnd]
    by_cases hp : nd.N > stop
    · rw [if_pos hp]
      obtain ⟨h8, hb⟩ := hwf idx nd hnd hp
      have hcmem : nd.CHILDREN.getD (assignOctant nd.CENTER q) 0 ∈ nd.CHILDREN := by
        have hlt : assignOctant nd.CENTER q < nd.CHILDREN.length := by
          rw [h8]; exact assignOctant_lt _ _
        rw [List.getD_eq_getElem _ _ hlt]
        exact List.getElem_mem hlt
      obtain ⟨hlt1, hlt2⟩ := hb _ hcmem
      exact ih _ hlt2 (by omega)
    · rw [if_neg hp]
      exact ⟨nd.KEYS, rfl⟩

theorem importLoop_cons (stop : ℕ) (arr : List Node) (k : ℕ) (v : JsonNode)
    (rest : List JsonNode) :
    importLoop stop arr k (v :: rest) =
      if k < arr.length then
        match importNode stop v with
        | none => none
        | some nd => importLoop stop (arr.set k nd) (k + 1) rest
      else none := rfl

theorem importNode_exportNode (stop k : ℕ) (v : Node)
    (h1 : stop < v.N → v.KEYS = [])
    (h2 : v.N ≤ stop → v.CENTER = (fun _ => 0) ∧ v.CHILDREN = List.replicate 8 0) :
    importNode stop (exportNode stop k v) = some v := by
  by_cases hp : v.N > stop
  · simp only [exportNode, importNode, if_pos hp]
    rw [← h1 hp]
  · simp only [exportNode, importNode, if_neg hp]
    obtain ⟨hc, hch⟩ := h2 (Nat.le_of_not_lt hp)
    rw [← hc, ← hch]

theorem importLoop_roundtrip (stop : ℕ) :
    ∀ (l pre : List Node),
      (∀ nd ∈ l, (stop < nd.N → nd.KEYS = []) ∧
        (nd.N ≤ stop → nd.CENTER = (fun _ => 0) ∧
          nd.CHILDREN = List.replicate 8 0)) →
      importLoop stop (pre ++ List.replicate l.length node0) pre.length
        ((List.enumFrom pre.length l).map (fun kv => exportNode stop kv.1 kv.2))
        = some (pre ++ l) := by
  intro l
  induction l with
  | nil => intro pre _; simp [importLoop]
  | cons v l ih =>
    intro pre hprop
    show importLoop stop (pre ++ node0 :: List.replicate l.length node0) pre.length
      (exportNode stop pre.length v
        :: (List.enumFrom (pre.length + 1) l).map (fun kv => exportNode stop kv.1 kv.2))
      = some (pre ++ v :: l)
    rw [importLoop_cons, if_pos (by simp)]
    simp only [importNode_exportNode stop pre.length v (hprop v (List.mem_cons_self v l)).1
      (hprop v (List.mem_cons_self v l)).2]
    have hstep : (pre ++ node0 :: List.replicate l.length node0).set pre.length v
        = (pre ++ [v]) ++ List.replicate l.length node0 := by
      rw [List.set_append_right _ _ (le_refl _)]
      simp
    rw [hstep]
    have hlen : pre.length + 1 = (pre ++ [v]).length := by simp
    rw [hlen]
    have := ih (pre ++ [v]) (fun nd hnd => hprop nd (List.mem_cons_of_mem v hnd))
    simpa using this

theorem leafCountSum_filter (stop : ℕ) (l : List Node) :
    ((l.filter (fun nd => decide (nd.N ≤ stop))).map Node.N).sum
      = leafCountSum stop l := by
  induction l with
  | nil => simp [leafCountSum]
  | cons x l ih =>
    by_cases h : x.N ≤ stop <;>
      simp [List.filter_cons, h, leafCountSum_cons, ih]

/-- C4: Octant assignment is a total deterministic function: for any
center point and target point it produces exactly one integer in `[0,7]`,
with bit `k` (bit 0 = x, bit 1 = y, bit 2 = z) set if and only if the
target's coordinate on axis `k` is strictly greater than the center's; a
point equal to the center on an axis goes to the low side for that axis,
so a point equal to the center on all axes yields octant `0`. -/
theorem assignOctant_spec (c p : DataCoords) :
    assignOctant c p ≤ 7 ∧
    (∀ k : Fin 3, Nat.testBit (assignOctant c p) k = decide (p k > c k)) ∧
    ((∀ k : Fin 3, p k = c k) → assignOctant c p = 0) := by
  refine ⟨?_, ?_, ?_⟩
  · by_cases h0 : p 0 > c 0 <;> by_cases h1 : p 1 > c 1 <;> by_cases h2 : p 2 > c 2 <;>
      simp [assignOctant, h0, h1, h2]
  · intro k
    by_cases h0 : p 0 > c 0 <;> by_cases h1 : p 1 > c 1 <;> by_cases h2 : p 2 > c 2 <;>
      fin_cases k <;> simp [assignOctant, h0, h1, h2] <;> rfl
  · intro h
    simp [assignOctant, h 0, h 1, h 2]

/-- Witness for `assignOctant_spec`: a point equal to the center on all
axes lands in octant `0`. -/
theorem assignOctant_spec_witness : assignOctant coords0 coords0 = 0 :=
  (assignOctant_spec coords0 coords0).2.2 (fun _ => rfl)

/-- C7 (code evaluation at the failing input): with the single data point
at the origin and the current estimate at the origin, the squared
Weiszfeld divisor for that point is exactly `0`, so the source's
`calcWeiszfeldEstimate` computes `1/math.Sqrt(0)`: it divides by zero
instead of failing with a numerical-degeneracy condition. -/
theorem weiszfeld_zero_distance_divisor :
    weiszfeldDivisorsSq [("A", coords0)] coords0 = [0] := by
  simp [weiszfeldDivisorsSq, weiszfeldMetricSq, coords0]

/-- C9 (code evaluation at the failing inputs): `Import` performs no
structural validation.  On `jShort` (two declared nodes, one record) it
silently succeeds, fabricating a zero-count leaf; on `jLong` (one declared
node, two records) the second write is out of range — a panic in the
source — and in neither case is any `CorruptData` condition raised. -/
theorem import_no_structural_validation :
    Import jShort = some ⟨"Centroid", 2, 0, 2,
      [⟨1, fun _ => 0, List.replicate 8 0, ["A"]⟩, node0]⟩ ∧
    Import jLong = none := by
  constructor <;> rfl

/-- C8: build with any threshold at most `1` fails with `InvalidThreshold`;
build with the unrecognized method name "bogus" (given otherwise valid
arguments) fails with `InvalidMethod` before any recursion; query before
any build or import fails with `EmptyTree`.  In each case no tree is
constructed (the error is returned without touching the node list). -/
theorem invalid_calls_fail :
    (∀ (gm : DataSet → DataCoords) (method : String) (terminal_N : ℤ)
        (pts : DataSet) (fuel : ℕ), terminal_N ≤ 1 →
      Make gm method terminal_N pts fuel = some (.error .invalidThreshold)) ∧
    (∀ (gm : DataSet → DataCoords) (terminal_N : ℤ) (pts : DataSet) (fuel : ℕ),
        1 < terminal_N → pts ≠ [] →
      Make gm "bogus" terminal_N pts fuel = some (.error .invalidMethod)) ∧
    (∀ (q : DataCoords) (fuel : ℕ), Query initState q fuel = .error .emptyTree) := by
  refine ⟨?_, ?_, ?_⟩
  · intro gm method tN pts fuel hle
    unfold Make
    rw [if_pos (by omega)]
  · intro gm tN pts fuel hgt hne
    unfold Make
    rw [if_neg (by omega), if_neg (by simpa using hne)]
    rfl
  · intro q fuel
    rfl

/-- Witness for `invalid_calls_fail` at concrete calls. -/
theorem invalid_calls_fail_witness :
    Make gmStub "Centroid" 1 [("A", coords0)] 1 = some (.error .invalidThreshold) ∧
    Make gmStub "bogus" 2 [("A", coords0)] 1 = some (.error .invalidMethod) ∧
    Query initState coords0 5 = .error .emptyTree :=
  ⟨invalid_calls_fail.1 gmStub "Centroid" 1 [("A", coords0)] 1 (by decide),
   invalid_calls_fail.2.1 gmStub 2 [("A", coords0)] 1 (by decide) (by simp),
   invalid_calls_fail.2.2 coords0 5⟩

theorem gmLoopGo_succ (W : DataCoords → DataCoords) (tol : ℚ)
    (maxIter budget iterations : ℕ) (e0 : DataCoords) :
    gmLoopGo W tol maxIter (budget + 1) iterations e0 =
      if iterations < maxIter then
        if maxDiff (diffAxes (W e0) e0) < tol then .ok (W e0)
        else if maxDiff (diffAxes (W (W e0)) (W e0)) < tol then .ok (W (W e0))
        else if maxDiff (diffAxes (calcAitkenEstimate e0 (W e0) (W (W e0)))
            (W (W e0))) < tol then
          .ok (calcAitkenEstimate e0 (W e0) (W (W e0)))
        else gmLoopGo W tol maxIter budget (iterations + 3)
          (nextGuess (diffAxes (W e0) e0) (diffAxes (W (W e0)) (W e0))
            (diffAxes (calcAitkenEstimate e0 (W e0) (W (W e0))) (W (W e0)))
            (W (W e0)) (calcAitkenEstimate e0 (W e0) (W (W e0))))
      else .error .maxIterationsExceeded := rfl

theorem gmLoopGo_budget_irrel (W : DataCoords → DataCoords) (tol : ℚ) (maxIter : ℕ) :
    ∀ (b1 b2 iterations : ℕ) (e0 : DataCoords),
      maxIter - iterations ≤ b1 → maxIter - iterations ≤ b2 →
      gmLoopGo W tol maxIter b1 iterations e0
        = gmLoopGo W tol maxIter b2 iterations e0 := by
  intro b1
  induction b1 with
  | zero =>
    intro b2 iterations e0 h1 h2
    cases b2 with
    | zero => rfl
    | succ b2' =>
      show (.error .maxIterationsExceeded : Except OctreeError DataCoords) = _
      rw [gmLoopGo_succ, if_neg (by omega)]
  | succ b1' ih =>
    intro b2 iterations e0 h1 h2
    cases b2 with
    | zero =>
      rw [gmLoopGo_succ, if_neg (by omega)]
      rfl
    | succ b2' =>
      rw [gmLoopGo_succ, gmLoopGo_succ]
      by_cases hc : iterations < maxIter
      · rw [if_pos hc, if_pos hc]
        by_cases hd1 : maxDiff (diffAxes (W e0) e0) < tol
        · rw [if_pos hd1, if_pos hd1]
        · rw [if_neg hd1, if_neg hd1]
          by_cases hd2 : maxDiff (diffAxes (W (W e0)) (W e0)) < tol
          · rw [if_pos hd2, if_pos hd2]
          · rw [if_neg hd2, if_neg hd2]
            by_cases hd3 : maxDiff (diffAxes (calcAitkenEstimate e0 (W e0) (W (W e0)))
                (W (W e0))) < tol
            · rw [if_pos hd3, if_pos hd3]
            · rw [if_neg hd3, if_neg hd3]
              exact ih b2' (iterations + 3) _ (by omega) (by omega)
      · rw [if_neg hc, if_neg hc]

/-- C6: the geometric-median estimator checks convergence after each of
the three sub-steps of a macro-iteration (two Weiszfeld steps, then one
Aitken step) and returns the current estimate immediately when the maximum
over axes of the current per-axis absolute difference is below the
tolerance; if no sub-step converged, the next guess is chosen per axis
independently (the Aitken value exactly when the three differences
decrease strictly monotonically on that axis, else the second Weiszfeld
value), the iteration counter advances by 3 and the loop repeats; and the
estimator fails with `MaxIterationsExceeded` once the counter no longer
satisfies `iterations < maxIter`. -/
theorem gmLoop_control_flow (W : DataCoords → DataCoords) (tol : ℚ)
    (maxIter iterations : ℕ) (e0 : DataCoords) :
    (iterations < maxIter → maxDiff (diffAxes (W e0) e0) < tol →
      gmLoop W tol maxIter iterations e0 = .ok (W e0)) ∧
    (iterations < maxIter → ¬ maxDiff (diffAxes (W e0) e0) < tol →
      maxDiff (diffAxes (W (W e0)) (W e0)) < tol →
      gmLoop W tol maxIter iterations e0 = .ok (W (W e0))) ∧
    (iterations < maxIter → ¬ maxDiff (diffAxes (W e0) e0) < tol →
      ¬ maxDiff (diffAxes (W (W e0)) (W e0)) < tol →
      maxDiff (diffAxes (calcAitkenEstimate e0 (W e0) (W (W e0))) (W (W e0))) < tol →
      gmLoop W tol maxIter iterations e0
        = .ok (calcAitkenEstimate e0 (W e0) (W (W e0)))) ∧
    (iterations < maxIter → ¬ maxDiff (diffAxes (W e0) e0) < tol →
      ¬ maxDiff (diffAxes (W (W e0)) (W e0)) < tol →
      ¬ maxDiff (diffAxes (calcAitkenEstimate e0 (W e0) (W (W e0))) (W (W e0))) < tol →
      gmLoop W tol maxIter iterations e0
        = gmLoop W tol maxIter (iterations + 3)
            (nextGuess (diffAxes (W e0) e0) (diffAxes (W (W e0)) (W e0))
              (diffAxes (calcAitkenEstimate e0 (W e0) (W (W e0))) (W (W e0)))
              (W (W e0)) (calcAitkenEstimate e0 (W e0) (W (W e0)))) ∧
      (∀ k : Fin 3,
        nextGuess (diffAxes (W e0) e0) (diffAxes (W (W e0)) (W e0))
          (diffAxes (calcAitkenEstimate e0 (W e0) (W (W e0))) (W (W e0)))
          (W (W e0)) (calcAitkenEstimate e0 (W e0) (W (W e0))) k
        = if diffAxes (W e0) e0 k > diffAxes (W (W e0)) (W e0) k ∧
              diffAxes (W (W e0)) (W e0) k
                > diffAxes (calcAitkenEstimate e0 (W e0) (W (W e0))) (W (W e0)) k
          then calcAitkenEstimate e0 (W e0) (W (W e0)) k
          else W (W e0) k)) ∧
    (¬ iterations < maxIter →
      gmLoop W tol maxIter iterations e0 = .error .maxIterationsExceeded) := by
  refine ⟨?_, ?_, ?_, ?_, ?_⟩
  · intro h h1
    unfold gmLoop
    rw [show maxIter - iterations = (maxIter - iterations - 1) + 1 by omega]
    rw [gmLoopGo_succ, if_pos h, if_pos h1]
  · intro h h1 h2
    unfold gmLoop
    rw [show maxIter - iterations = (maxIter - iterations - 1) + 1 by omega]
    rw [gmLoopGo_succ, if_pos h, if_neg h1, if_pos h2]
  · intro h h1 h2 h3
    unfold gmLoop
    rw [show maxIter - iterations = (maxIter - iterations - 1) + 1 by omega]
    rw [gmLoopGo_succ, if_pos h, if_neg h1, if_neg h2, if_pos h3]
  · intro h h1 h2 h3
    constructor
    · unfold gmLoop
      rw [show maxIter - iterations = (maxIter - iterations - 1) + 1 by omega]
      rw [gmLoopGo_succ, if_pos h, if_neg h1, if_neg h2, if_neg h3]
      exact gmLoopGo_budget_irrel W tol maxIter _ _ (iterations + 3) _
        (by omega) (by omega)
    · intro k
      rfl
  · intro h
    unfold gmLoop
    rw [show maxIter - iterations = 0 by omega]
    rfl

/-- Witness for `gmLoop_control_flow`: with no iteration budget the
estimator fails immediately with `MaxIterationsExceeded`. -/
theorem gmLoop_control_flow_witness :
    gmLoop (fun e => e) 1 0 0 coords0 = .error .maxIterationsExceeded :=
  (gmLoop_control_flow (fun e => e) 1 0 0 coords0).2.2.2.2 (by decide)

/-- C1: for every valid build (recognized method name, threshold > 1,
non-empty point set, and the build completes — all encoded by `Make`
returning a state) and for every point in the original input set, querying
the built tree with that point's exact coordinates returns an identifier
set that contains that point's own identifier. -/
theorem build_query_self_membership (gm : DataSet → DataCoords) (method : String)
    (terminal_N : ℤ) (pts : DataSet) (fuel : ℕ) (st : OctreeState)
    (hmk : Make gm method terminal_N pts fuel = some (.ok st))
    (key : String) (p : DataCoords) (hmem : (key, p) ∈ pts) :
    ∃ keys, Query st p st.SIZE = .ok (some keys) ∧ key ∈ keys := by
  obtain ⟨cc, tree, hcc, hbuild, rfl, hgt, hne⟩ :=
    Make_ok_elim gm method terminal_N pts fuel st hmk
  obtain ⟨seg, heq, hsegne, -, -, -, hq⟩ :=
    buildNode_spec cc terminal_N.toNat fuel [] pts tree hbuild
  rw [List.nil_append] at heq
  subst heq
  obtain ⟨keys, hqf, hkey⟩ := hq tree (fun i _ _ => rfl) key p hmem
  refine ⟨keys, ?_, hkey⟩
  unfold Query
  rw [if_neg (by simpa using List.length_pos.mpr hsegne |>.ne')]
  simpa using hqf

/-- C3: in the tree produced by a completed build with threshold
`terminal_N`, every leaf node's point count (a leaf is a node whose count
is at most the build threshold `STOP`) is at most `terminal_N`, and the
leaf point counts summed over all leaves equal the size of the original
point set. -/
theorem leaf_count_invariant (gm : DataSet → DataCoords) (method : String)
    (terminal_N : ℤ) (pts : DataSet) (fuel : ℕ) (st : OctreeState)
    (hmk : Make gm method terminal_N pts fuel = some (.ok st)) :
    (∀ nd ∈ st.octree, nd.N ≤ st.STOP → (nd.N : ℤ) ≤ terminal_N) ∧
    ((st.octree.filter (fun nd => decide (nd.N ≤ st.STOP))).map Node.N).sum
      = pts.length := by
  obtain ⟨cc, tree, hcc, hbuild, rfl, hgt, hne⟩ :=
    Make_ok_elim gm method terminal_N pts fuel st hmk
  obtain ⟨seg, heq, -, -, -, hsum, -⟩ :=
    buildNode_spec cc terminal_N.toNat fuel [] pts tree hbuild
  rw [List.nil_append] at heq
  subst heq
  constructor
  · intro nd _ hle
    have h1 : nd.N ≤ terminal_N.toNat := hle
    omega
  · rw [show ((⟨method, terminal_N.toNat, 0, tree.length, tree⟩ : OctreeState).octree)
      = tree from rfl]
    rw [leafCountSum_filter]
    exact hsum

/-- C5: in every tree produced by a completed build, node 0 is the root
(carrying the whole input's point count); every node whose count exceeds
the stored threshold `STOP` (the same threshold `Query`, `Export` and
`calcStatsM` compare against) holds exactly eight child links, each a
valid node-list index strictly greater than the node's own index; and
each node is a parent or a leaf, exclusively, by that single comparison. -/
theorem node_list_invariants (gm : DataSet → DataCoords) (method : String)
    (terminal_N : ℤ) (pts : DataSet) (fuel : ℕ) (st : OctreeState)
    (hmk : Make gm method terminal_N pts fuel = some (.ok st)) :
    (∃ root, st.octree[0]? = some root ∧ root.N = pts.length) ∧
    (∀ i nd, st.octree[i]? = some nd → st.STOP < nd.N →
      nd.CHILDREN.length = 8 ∧ ∀ c ∈ nd.CHILDREN, i < c ∧ c < st.octree.length) ∧
    (∀ nd ∈ st.octree,
      (st.STOP < nd.N ∨ nd.N ≤ st.STOP) ∧ ¬ (st.STOP < nd.N ∧ nd.N ≤ st.STOP)) := by
  obtain ⟨cc, tree, hcc, hbuild, rfl, hgt, hne⟩ :=
    Make_ok_elim gm method terminal_N pts fuel st hmk
  obtain ⟨seg, heq, hsegne, hroot, hwf, -, -⟩ :=
    buildNode_spec cc terminal_N.toNat fuel [] pts tree hbuild
  rw [List.nil_append] at heq
  subst heq
  refine ⟨?_, ?_, ?_⟩
  · obtain ⟨root, hh, hn⟩ := hroot
    exact ⟨root, by rw [← List.head?_eq_getElem?]; exact hh, hn⟩
  · intro i nd hget hpar
    have hw := (hwf i nd hget).1 hpar
    exact ⟨hw.1, fun c hc => by have := hw.2.1 c hc; simpa using this⟩
  · intro nd _
    omega

/-- C10: for every tree produced by a completed build and every query
point — including points outside the data's original extent — the query
descent terminates: each step moves to a strictly larger in-range child
index, so a leaf is reached within `SIZE` steps and its key set is
returned. -/
theorem query_descent_terminates (gm : DataSet → DataCoords) (method : String)
    (terminal_N : ℤ) (pts : DataSet) (fuel : ℕ) (st : OctreeState)
    (hmk : Make gm method terminal_N pts fuel = some (.ok st)) (q : DataCoords) :
    ∃ keys, Query st q st.SIZE = .ok (some keys) := by
  obtain ⟨cc, tree, hcc, hbuild, rfl, hgt, hne⟩ :=
    Make_ok_elim gm method terminal_N pts fuel st hmk
  obtain ⟨seg, heq, hsegne, -, hwf, -, -⟩ :=
    buildNode_spec cc terminal_N.toNat fuel [] pts tree hbuild
  rw [List.nil_append] at heq
  subst heq
  have hwf' : ∀ i nd, tree[i]? = some nd → terminal_N.toNat < nd.N →
      nd.CHILDREN.length = 8 ∧ ∀ c ∈ nd.CHILDREN, i < c ∧ c < tree.length := by
    intro i nd hget hpar
    have hw := (hwf i nd hget).1 hpar
    exact ⟨hw.1, fun c hc => by have := hw.2.1 c hc; simpa using this⟩
  have hpos : 0 < tree.length := List.length_pos.mpr hsegne
  obtain ⟨keys, hqf⟩ := queryFrom_total tree terminal_N.toNat q hwf'
    tree.length 0 hpos (by omega)
  refine ⟨keys, ?_⟩
  unfold Query
  rw [if_neg (by simpa using hpos.ne')]
  simpa using hqf

/-- C2: for every tree produced by a completed build, `Export` followed by
`Import` reproduces an observably identical engine state — the same node
count, the same per-node count/center/children/keys, the same metadata
(method, threshold) — and statistics recomputed after import equal the
statistics computed right after the original build. -/
theorem export_import_roundtrip (gm : DataSet → DataCoords) (method : String)
    (terminal_N : ℤ) (pts : DataSet) (fuel : ℕ) (st : OctreeState)
    (hmk : Make gm method terminal_N pts fuel = some (.ok st)) :
    ∃ j, Export st = .ok j ∧ Import j = some st ∧
      (∀ st', Import j = some st' →
        calcStatsM st'.octree st'.STOP = calcStatsM st.octree st.STOP) := by
  obtain ⟨cc, tree, hcc, hbuild, rfl, hgt, hne⟩ :=
    Make_ok_elim gm method terminal_N pts fuel st hmk
  obtain ⟨seg, heq, hsegne, -, hwf, -, -⟩ :=
    buildNode_spec cc terminal_N.toNat fuel [] pts tree hbuild
  rw [List.nil_append] at heq
  subst heq
  have hsz : tree.length ≠ 0 := (List.length_pos.mpr hsegne).ne'
  have hprop : ∀ nd ∈ tree, (terminal_N.toNat < nd.N → nd.KEYS = []) ∧
      (nd.N ≤ terminal_N.toNat → nd.CENTER = (fun _ => 0) ∧
        nd.CHILDREN = List.replicate 8 0) := by
    intro nd hnd
    obtain ⟨i, hi⟩ := List.getElem?_of_mem hnd
    have hw := hwf i nd hi
    exact ⟨fun hp => (hw.1 hp).2.2, hw.2⟩
  have hexp : Export ⟨method, terminal_N.toNat, 0, tree.length, tree⟩
      = .ok ⟨method, terminal_N.toNat, 0, tree.length,
          tree.enum.map (fun kv => exportNode terminal_N.toNat kv.1 kv.2)⟩ := by
    unfold Export
    rw [if_neg (by simpa using hsz)]
  have himp : Import ⟨method, terminal_N.toNat, 0, tree.length,
      tree.enum.map (fun kv => exportNode terminal_N.toNat kv.1 kv.2)⟩
      = some ⟨method, terminal_N.toNat, 0, tree.length, tree⟩ := by
    unfold Import
    have hloop := importLoop_roundtrip terminal_N.toNat tree [] hprop
    simp only [List.nil_append, List.length_nil] at hloop
    rw [show List.enumFrom 0 tree = tree.enum from rfl] at hloop
    simp only [hloop]
  refine ⟨_, hexp, himp, ?_⟩
  intro st' h'
  rw [himp] at h'
  obtain rfl : (⟨method, terminal_N.toNat, 0, tree.length, tree⟩ : OctreeState)
      = st' := by simpa using h'
  rfl

/-- Witness for `build_query_self_membership`: on the concrete build of
`ptsABD`, querying with `(1,1,1)` returns a key set containing `B`. -/
theorem build_query_self_membership_witness :
    ∃ keys, Query stW coords1 stW.SIZE = .ok (some keys) ∧ "B" ∈ keys :=
  build_query_self_membership gmStub "Geometric Median" 2 ptsABD 2 stW rfl "B"
    coords1 (List.mem_cons_of_mem _ (List.mem_cons_self _ _))

/-- Witness for `export_import_roundtrip` on the concrete build. -/
theorem export_import_roundtrip_witness :
    ∃ j, Export stW = .ok j ∧ Import j = some stW ∧
      (∀ st', Import j = some st' →
        calcStatsM st'.octree st'.STOP = calcStatsM stW.octree stW.STOP) :=
  export_import_roundtrip gmStub "Geometric Median" 2 ptsABD 2 stW rfl

/-- Witness for `leaf_count_invariant` on the concrete build. -/
theorem leaf_count_invariant_witness :
    (∀ nd ∈ stW.octree, nd.N ≤ stW.STOP → (nd.N : ℤ) ≤ 2) ∧
    ((stW.octree.filter (fun nd => decide (nd.N ≤ stW.STOP))).map Node.N).sum
      = ptsABD.length :=
  leaf_count_invariant gmStub "Geometric Median" 2 ptsABD 2 stW rfl

/-- Witness for `node_list_invariants` on the concrete build. -/
theorem node_list_invariants_witness :
    (∃ root, stW.octree[0]? = some root ∧ root.N = ptsABD.length) ∧
    (∀ i nd, stW.octree[i]? = some nd → stW.STOP < nd.N →
      nd.CHILDREN.length = 8 ∧ ∀ c ∈ nd.CHILDREN, i < c ∧ c < stW.octree.length) ∧
    (∀ nd ∈ stW.octree,
      (stW.STOP < nd.N ∨ nd.N ≤ stW.STOP) ∧
        ¬ (stW.STOP < nd.N ∧ nd.N ≤ stW.STOP)) :=
  node_list_invariants gmStub "Geometric Median" 2 ptsABD 2 stW rfl

/-- Witness for `query_descent_terminates` on the concrete build, queried
far outside the data extent. -/
theorem query_descent_terminates_witness :
    ∃ keys, Query stW (fun _ => 100) stW.SIZE = .ok (some keys) :=
  query_descent_terminates gmStub "Geometric Median" 2 ptsABD 2 stW rfl
    (fun _ => 100)
